import Mathlib

/-!
Shallow embedding of the appointment-scheduler core (`storage.py`,
`scheduler.py`).  The durable store is modelled as a `List Appointment`
(the deserialized collection); `writeOk : Bool` models whether the
underlying file write succeeds; wall-clock timestamps are passed in as
explicit arguments.  Python `dict.get` defaults are baked into the
structure field defaults.  Operations that can raise an uncaught
exception return `Option` (`none` = the exception escapes).
-/

/-- Splits a character list on every occurrence of `c`, mirroring how
`strptime` cuts the input at the literal separators of the format. -/
def splitOnChar (c : Char) : List Char → List (List Char)
  | [] => [[]]
  | x :: xs =>
    let r := splitOnChar c xs
    if x = c then [] :: r
    else
      match r with
      | [] => [[x]]
      | g :: gs => (x :: g) :: gs

/-- Numeric value of a digit string (most significant first). -/
def digitsVal (cs : List Char) : Nat :=
  cs.foldl (fun acc c => acc * 10 + (c.toNat - 48)) 0

/-- Models `datetime.strptime` with format `"%H:%M"`, as minutes since midnight.
`%H` accepts one or two digits with value 0..23, `%M` one or two digits
with value 0..59, separated by exactly one `:` with nothing left over;
`none` models the `ValueError`. -/
def parse_time (s : String) : Option Nat :=
  match splitOnChar ':' s.data with
  | [h, m] =>
    if 1 ≤ h.length ∧ h.length ≤ 2 ∧ h.all Char.isDigit = true ∧
       1 ≤ m.length ∧ m.length ≤ 2 ∧ m.all Char.isDigit = true ∧
       digitsVal h ≤ 23 ∧ digitsVal m ≤ 59
    then some (digitsVal h * 60 + digitsVal m) else none
  | _ => none

/-- Gregorian leap year, as in the Python datetime module. -/
def isLeap (y : Nat) : Bool :=
  y % 4 == 0 && (y % 100 != 0 || y % 400 == 0)

/-- Number of days in month `m` of year `y`. -/
def daysInMonth (y m : Nat) : Nat :=
  if m = 2 then (if isLeap y then 29 else 28)
  else if m = 4 ∨ m = 6 ∨ m = 9 ∨ m = 11 then 30
  else 31

/-- Models `datetime.strptime` with format `"%Y-%m-%d"`: `%Y` is exactly four digits with
year ≥ 1, `%m` one or two digits in 1..12, `%d` one or two digits that
form a valid day of the month; `none` models the `ValueError`. -/
def parse_date (s : String) : Option (Nat × Nat × Nat) :=
  match splitOnChar '-' s.data with
  | [y, m, d] =>
    if y.length = 4 ∧ y.all Char.isDigit = true ∧
       1 ≤ m.length ∧ m.length ≤ 2 ∧ m.all Char.isDigit = true ∧
       1 ≤ d.length ∧ d.length ≤ 2 ∧ d.all Char.isDigit = true ∧
       1 ≤ digitsVal y ∧ 1 ≤ digitsVal m ∧ digitsVal m ≤ 12 ∧
       1 ≤ digitsVal d ∧ digitsVal d ≤ daysInMonth (digitsVal y) (digitsVal m)
    then some (digitsVal y, digitsVal m, digitsVal d) else none
  | _ => none

/-- The ASCII digit character for `n` (used with `n ≤ 9`). -/
def digitChar (n : Nat) : Char := Char.ofNat (48 + n)

/-- Two-character zero-padded decimal rendering, as `"%02d"`/`"%H"`. -/
def pad2 (n : Nat) : List Char := [digitChar (n / 10), digitChar (n % 10)]

/-- Models `strftime` with format `"%H:%M"` on a minutes-since-midnight value. -/
def fmtTime (n : Nat) : String :=
  String.mk (pad2 (n / 60) ++ ':' :: pad2 (n % 60))

/-- Models the label built by `get_available_slots` from an hour
parameter: the hour rendered as two zero-padded digits, then a colon
and two zero digits. -/
def fmtHourLabel (h : Nat) : String :=
  String.mk (pad2 h ++ [':', '0', '0'])

/-- Lexicographic comparison of character lists by code point, the
Python string less-or-equal. -/
def charsLe : List Char → List Char → Bool
  | [], _ => true
  | _ :: _, [] => false
  | a :: as_, b :: bs =>
    if a.toNat < b.toNat then true
    else if b.toNat < a.toNat then false
    else charsLe as_ bs

/-- Python string comparison (code-point lexicographic, non-strict). -/
def strLe (s t : String) : Bool := charsLe s.data t.data

/-- An appointment record.  Field defaults mirror the `dict.get`
defaults used by the code (empty string for strings, 60 for the duration). -/
structure Appointment where
  id : Nat := 0
  title : String := ""
  date : String := ""
  time : String := ""
  duration_minutes : Nat := 60
  client_name : String := ""
  description : String := ""
  status : String := ""
  created_at : String := ""
  updated_at : Option String := none
deriving Repr, DecidableEq

/-- The `(id, title, time, duration)` projection appended to the
conflict list by `_check_conflicts`. -/
structure ConflictInfo where
  id : Nat
  title : String
  time : String
  duration : Nat
deriving Repr, DecidableEq

/-- Builds the conflict-list entry for a stored appointment. -/
def conflictOf (a : Appointment) : ConflictInfo :=
  ⟨a.id, a.title, a.time, a.duration_minutes⟩

/-- The structured result dictionary returned by the scheduling engine;
absent keys are `none`. -/
structure SchedResult where
  success : Bool
  error : Option String := none
  conflicts : Option (List ConflictInfo) := none
  appointment : Option Appointment := none
  message : Option String := none
deriving Repr, DecidableEq

/-- State of the persisted file as seen by `load_appointments`,
distinguishing the outcomes the code treats differently: a valid JSON
array of records; a missing file (`FileNotFoundError`, caught); content
that is text but not valid JSON (`json.JSONDecodeError`, caught); an
empty file (the read succeeds and the falsy-content guard yields the
empty collection); a file the process cannot read
(`PermissionError` or another `OSError`, NOT caught); bytes that do not
decode as text (`UnicodeDecodeError`, NOT caught); and valid JSON whose
top-level value is not a list. -/
inductive FileContent where
  | goodList (appts : List Appointment)
  | missing
  | malformed
  | emptyFile
  | unreadable
  | undecodable
  | nonListJson
deriving Repr, DecidableEq

/-- Outcome of a load: a deserialized list; a value returned without
error that is NOT a list, on which the calling operation then fails
with `AttributeError` or `TypeError` as soon as it iterates records or
appends; or an exception escaping `load_appointments` itself. -/
inductive LoadResult where
  | list (appts : List Appointment)
  | nonList
  | raised
deriving Repr, DecidableEq

/-- Models `AppointmentStorage.load_appointments`: only
`json.JSONDecodeError` and `FileNotFoundError` are caught and degrade
to the empty collection (an empty file also yields it); an unreadable
or undecodable file raises out of the method, and valid non-list JSON
is returned as-is. -/
def load_appointments : FileContent → LoadResult
  | .goodList l => .list l
  | .missing => .list []
  | .malformed => .list []
  | .emptyFile => .list []
  | .unreadable => .raised
  | .undecodable => .raised
  | .nonListJson => .nonList

/-- Models `AppointmentStorage.save_appointment`: assigns `id = len + 1`,
stamps the creation time, appends, persists.  Returns the success flag,
the resulting durable collection (unchanged if the write fails), and
the stamped record. -/
def save_appointment (store : List Appointment) (appt : Appointment)
    (now : String) (writeOk : Bool) : Bool × List Appointment × Appointment :=
  let a := { appt with id := store.length + 1, created_at := now }
  if writeOk then (true, store ++ [a], a) else (false, store, a)

/-- Models `AppointmentStorage.get_appointment`: first record with the id. -/
def get_appointment (store : List Appointment) (appointment_id : Nat) :
    Option Appointment :=
  store.find? (fun a => a.id == appointment_id)

/-- The partial-field dictionaries passed to `update_appointment` by
the scheduler (`{date, time}` from reschedule, `{status}` from cancel). -/
structure UpdateData where
  date : Option String := none
  time : Option String := none
  status : Option String := none

/-- Merging an update dictionary into a record, stamping `updated_at`. -/
def applyUpdate (u : UpdateData) (now : String) (a : Appointment) : Appointment :=
  { a with date := u.date.getD a.date, time := u.time.getD a.time,
           status := u.status.getD a.status, updated_at := some now }

/-- Replaces the first record with the given id by its updated version;
`none` when no record matches. -/
def update_list (appointment_id : Nat) (u : UpdateData) (now : String) :
    List Appointment → Option (List Appointment)
  | [] => none
  | a :: rest =>
    if a.id = appointment_id then some (applyUpdate u now a :: rest)
    else
      match update_list appointment_id u now rest with
      | some r => some (a :: r)
      | none => none

/-- Models `AppointmentStorage.update_appointment`: updates the first matching
record and persists; the durable collection is unchanged when no record
matches or the write fails. -/
def update_appointment (store : List Appointment) (appointment_id : Nat)
    (u : UpdateData) (now : String) (writeOk : Bool) : Bool × List Appointment :=
  match update_list appointment_id u now store with
  | some newStore => if writeOk then (true, newStore) else (false, store)
  | none => (false, store)

/-- Models `AppointmentStorage.delete_appointment`: drops every record with
the id; succeeds iff the collection shrank and the write succeeded. -/
def delete_appointment (store : List Appointment) (appointment_id : Nat)
    (writeOk : Bool) : Bool × List Appointment :=
  let remaining := store.filter (fun a => a.id != appointment_id)
  if remaining.length < store.length then
    (if writeOk then (true, remaining) else (false, store))
  else (false, store)

/-- Models `AppointmentStorage.get_appointments_by_date`: exact
date-string filter. -/
def get_appointments_by_date (store : List Appointment) (date_str : String) :
    List Appointment :=
  store.filter (fun a => a.date == date_str)

/-- The loop body of `_check_conflicts` over the records of the date: skips
cancelled records, and a `ValueError` on a stored time aborts the scan,
returning only the conflicts accumulated so far (modelled by the `none`
branch returning `[]`, which truncates the list being built). -/
def check_loop (start dur : Nat) : List Appointment → List ConflictInfo
  | [] => []
  | a :: rest =>
    if a.status = "cancelled" then check_loop start dur rest
    else
      match parse_time a.time with
      | none => []
      | some as_ =>
        if start < as_ + a.duration_minutes ∧ start + dur > as_ then
          conflictOf a :: check_loop start dur rest
        else check_loop start dur rest

/-- Models `AppointmentScheduler._check_conflicts`: fetches the records of the date
and scans them; a `ValueError` on the candidate time itself yields an
empty conflict list. -/
def check_conflicts (store : List Appointment) (date time : String)
    (duration : Nat) : List ConflictInfo :=
  match parse_time time with
  | none => []
  | some start => check_loop start duration (get_appointments_by_date store date)

/-- Models `AppointmentScheduler.create_appointment`. -/
def create_appointment (store : List Appointment) (writeOk : Bool) (now : String)
    (title date time : String) (duration_minutes : Nat)
    (client_name description : String) : SchedResult × List Appointment :=
  if (parse_date date).isNone ∨ (parse_time time).isNone then
    ({ success := false, error := some "Invalid date or time format" }, store)
  else
    let conflicts := check_conflicts store date time duration_minutes
    if conflicts ≠ [] then
      ({ success := false, error := some "Appointment conflicts with existing slots",
         conflicts := some conflicts }, store)
    else
      let appt : Appointment :=
        { title := title, date := date, time := time,
          duration_minutes := duration_minutes, client_name := client_name,
          description := description, status := "scheduled" }
      let r := save_appointment store appt now writeOk
      ({ success := r.1, appointment := if r.1 then some r.2.2 else none }, r.2.1)

/-- The `while current_time < end_time` loop of `get_available_slots`,
with a fuel argument: 48 suffices, since the end time is at most
`23 * 60` minutes and each iteration advances by 30. -/
def slots_go (store : List Appointment) (date : String) (dur endt : Nat) :
    Nat → Nat → List String
  | 0, _ => []
  | fuel + 1, cur =>
    if cur < endt then
      (if check_conflicts store date (fmtTime cur) dur = [] then
        fmtTime cur :: slots_go store date dur endt fuel (cur + 30)
      else slots_go store date dur endt fuel (cur + 30))
    else []

/-- Models `AppointmentScheduler.get_available_slots`.  An unparseable date is
caught and yields `some []`; the hour labels are parsed OUTSIDE the
`try`, so a label that fails to parse (hour outside 0..23) raises an
uncaught `ValueError`, modelled as `none`. -/
def get_available_slots (store : List Appointment) (date : String)
    (duration_minutes start_hour end_hour : Nat) : Option (List String) :=
  match parse_date date with
  | none => some []
  | some _ =>
    match parse_time (fmtHourLabel start_hour), parse_time (fmtHourLabel end_hour) with
    | some cur, some endt => some (slots_go store date duration_minutes endt 48 cur)
    | _, _ => none

/-- Models `AppointmentScheduler.reschedule_appointment`. -/
def reschedule_appointment (store : List Appointment) (writeOk : Bool)
    (now : String) (appointment_id : Nat) (new_date new_time : String) :
    SchedResult × List Appointment :=
  match get_appointment store appointment_id with
  | none => ({ success := false, error := some "Appointment not found" }, store)
  | some appt =>
    let conflicts := check_conflicts store new_date new_time appt.duration_minutes
    if conflicts ≠ [] then
      ({ success := false, error := some "New time has conflicts",
         conflicts := some conflicts }, store)
    else
      let r := update_appointment store appointment_id
        { date := some new_date, time := some new_time } now writeOk
      ({ success := r.1,
         message := some (if r.1 then "Appointment rescheduled successfully"
                          else "Failed to reschedule") }, r.2)

/-- Models `AppointmentScheduler.cancel_appointment`. -/
def cancel_appointment (store : List Appointment) (writeOk : Bool)
    (now : String) (appointment_id : Nat) : SchedResult × List Appointment :=
  match get_appointment store appointment_id with
  | none => ({ success := false, error := some "Appointment not found" }, store)
  | some _ =>
    let r := update_appointment store appointment_id
      { status := some "cancelled" } now writeOk
    ({ success := r.1,
       message := some (if r.1 then "Appointment cancelled"
                        else "Failed to cancel") }, r.2)

/-- Stable insertion by time string, placing an earlier-listed record
before later ones with an equal key — the unique stable order, hence
the same list that the stable Python sorted builtin produces. -/
def insertByTime (a : Appointment) : List Appointment → List Appointment
  | [] => [a]
  | b :: bs =>
    if strLe a.time b.time then a :: b :: bs else b :: insertByTime a bs

/-- Stable sort by the `time` field. -/
def sortByTime : List Appointment → List Appointment
  | [] => []
  | a :: rest => insertByTime a (sortByTime rest)

/-- Models `AppointmentScheduler.get_day_schedule`. -/
def get_day_schedule (store : List Appointment) (date : String) :
    List Appointment :=
  sortByTime (get_appointments_by_date store date)

/-- Days before month `m` in a year with leap flag from `y`. -/
def daysBeforeMonth (y m : Nat) : Nat :=
  (([31, if isLeap y then 29 else 28, 31, 30, 31, 30,
     31, 31, 30, 31, 30, 31].take (m - 1)).foldl (· + ·) 0)

/-- Proleptic-Gregorian day ordinal as in `datetime.date.toordinal`;
only its differences matter to the code. -/
def dateOrdinal (y m d : Nat) : Nat :=
  365 * (y - 1) + (y - 1) / 4 - (y - 1) / 100 + (y - 1) / 400 +
    daysBeforeMonth y m + d

/-- Python tuple comparison on the `(date, time)` sort key. -/
def keyLe (a b : Appointment) : Bool :=
  if a.date = b.date then strLe a.time b.time else strLe a.date b.date

/-- Stable insertion by the `(date, time)` key. -/
def insertByDateTime (a : Appointment) : List Appointment → List Appointment
  | [] => [a]
  | b :: bs => if keyLe a b then a :: b :: bs else b :: insertByDateTime a bs

/-- Stable sort by the `(date, time)` key. -/
def sortByDateTime : List Appointment → List Appointment
  | [] => []
  | a :: rest => insertByDateTime a (sortByDateTime rest)

/-- The filtering loop of `get_upcoming_appointments`: skips cancelled
records, and (unlike `_check_conflicts`) catches the `ValueError` of an
unparseable date per record and continues. -/
def upcoming_filter (todayOrd days_ahead : Nat) : List Appointment → List Appointment
  | [] => []
  | a :: rest =>
    if a.status = "cancelled" then upcoming_filter todayOrd days_ahead rest
    else
      match parse_date a.date with
      | none => upcoming_filter todayOrd days_ahead rest
      | some (y, m, d) =>
        if (0 : Int) ≤ (dateOrdinal y m d : Int) - (todayOrd : Int) ∧
           (dateOrdinal y m d : Int) - (todayOrd : Int) ≤ (days_ahead : Int) then
          a :: upcoming_filter todayOrd days_ahead rest
        else upcoming_filter todayOrd days_ahead rest

/-- Models `AppointmentScheduler.get_upcoming_appointments`, with the
wall-clock "today" passed as an ordinal. -/
def get_upcoming_appointments (store : List Appointment)
    (todayOrd days_ahead : Nat) : List Appointment :=
  sortByDateTime (upcoming_filter todayOrd days_ahead store)

/-! Spec-side definitions, written from the wording of the spec, to be
compared with the code-derived definitions above. -/

/-- Spec-side overlap test: some non-cancelled record of the date has a
parseable time whose half-open interval overlaps the candidate interval
starting at `start` with length `dur`. -/
def hasRealConflict (store : List Appointment) (date : String)
    (start dur : Nat) : Bool :=
  store.any (fun a =>
    a.date == date && a.status != "cancelled" &&
    match parse_time a.time with
    | none => false
    | some as_ =>
      decide (start < as_ + a.duration_minutes) && decide (start + dur > as_))

/-- Spec-side candidate grid: start times in minutes at 30-minute
increments from `cur`, strictly below `endt`, with the same fuel shape
as the slot loop. -/
def gridGo : Nat → Nat → Nat → List Nat
  | 0, _, _ => []
  | fuel + 1, cur, endt =>
    if cur < endt then cur :: gridGo fuel (cur + 30) endt else []

/-- Spec-side candidate grid for a working window given in hours. -/
def candidates (start_hour end_hour : Nat) : List Nat :=
  gridGo 48 (start_hour * 60) (end_hour * 60)

/-- Every non-cancelled record of the date carries a parseable time
(the store shape the conflict scan assumes). -/
def timesParse (store : List Appointment) (date : String) : Prop :=
  ∀ a ∈ store, a.date = date → a.status ≠ "cancelled" →
    (parse_time a.time).isSome = true

/-- The identifier column of the collection has no duplicates. -/
def uniqueIds (l : List Appointment) : Prop :=
  (l.map (fun a => a.id)).Nodup

/-- Every identifier is at most the collection length (true of every
store built by the create-only workflow, where ids are `1..len`). -/
def idsBounded (l : List Appointment) : Prop :=
  ∀ a ∈ l, a.id ≤ l.length

/-- Arguments of one `create_appointment` call in a sequential run. -/
structure CreateReq where
  title : String := ""
  date : String := ""
  time : String := ""
  duration_minutes : Nat := 60
  client_name : String := ""
  description : String := ""
  now : String := ""
  write_ok : Bool := true

/-- Runs a sequence of create calls against the store, threading the
durable state and collecting the results. -/
def runCreates : List CreateReq → List Appointment →
    List SchedResult × List Appointment
  | [], s => ([], s)
  | r :: rs, s =>
    let step := create_appointment s r.write_ok r.now r.title r.date r.time
      r.duration_minutes r.client_name r.description
    let rest := runCreates rs step.2
    (step.1 :: rest.1, rest.2)

/-! Concrete records used by witnesses and counterexamples. -/

/-- A scheduled appointment on 2026-01-15 from 10:00 to 11:00. -/
def exMeeting : Appointment :=
  { id := 1, title := "Meeting 1", date := "2026-01-15", time := "10:00",
    duration_minutes := 60, status := "scheduled" }

/-- A non-cancelled record whose stored time does not parse. -/
def badTimeRec : Appointment :=
  { id := 1, title := "bad", date := "2026-01-15", time := "garbage",
    duration_minutes := 60, status := "scheduled" }

/-- A non-cancelled record from 10:00 to 11:00, stored after the
malformed one. -/
def overlapRec : Appointment :=
  { id := 2, title := "good", date := "2026-01-15", time := "10:00",
    duration_minutes := 60, status := "scheduled" }

/-- A store whose scan is truncated by `badTimeRec` before it reaches
`overlapRec`. -/
def truncStore : List Appointment := [badTimeRec, overlapRec]

/-- First record of the id-reuse scenario. -/
def exA1 : Appointment := { id := 1, title := "first" }

/-- Second record of the id-reuse scenario. -/
def exA2 : Appointment := { id := 2, title := "second" }

/-- The record as left by a successful cancel: status overwritten,
update time stamped, every other field untouched. -/
def cancelledVersion (now : String) (a : Appointment) : Appointment :=
  { a with status := "cancelled", updated_at := some now }

/-- A second scheduled appointment, on 2026-01-16 at 09:00. -/
def exMeeting2 : Appointment :=
  { id := 2, title := "Meeting 2", date := "2026-01-16", time := "09:00",
    duration_minutes := 60, status := "scheduled" }

/-- A two-appointment store used to instantiate the reschedule and
cancel theorems. -/
def exStore2 : List Appointment := [exMeeting, exMeeting2]

theorem digitChar_isDigit (k : Nat) (hk : k ≤ 9) : (digitChar k).isDigit = true := by
  interval_cases k <;> decide

theorem digitChar_toNat (k : Nat) (hk : k ≤ 9) : (digitChar k).toNat = 48 + k := by
  interval_cases k <;> decide

theorem digitChar_ne_colon (k : Nat) (hk : k ≤ 9) : digitChar k ≠ ':' := by
  interval_cases k <;> decide

theorem splitOnChar_not_mem (c : Char) (l : List Char) (h : ∀ x ∈ l, x ≠ c) :
    splitOnChar c l = [l] := by
  induction l with
  | nil => rfl
  | cons x xs ih =>
    have hx : x ≠ c := h x (by simp)
    have hr := ih (fun y hy => h y (by simp [hy]))
    simp [splitOnChar, hx, hr]

theorem splitOnChar_sep (c : Char) (l1 l2 : List Char)
    (h1 : ∀ x ∈ l1, x ≠ c) (h2 : ∀ x ∈ l2, x ≠ c) :
    splitOnChar c (l1 ++ c :: l2) = [l1, l2] := by
  induction l1 with
  | nil => simp [splitOnChar, splitOnChar_not_mem c l2 h2]
  | cons x xs ih =>
    have hx : x ≠ c := h1 x (by simp)
    have hr := ih (fun y hy => h1 y (by simp [hy]))
    simp [splitOnChar, hx, hr]

theorem pad2_div_le (n : Nat) (hn : n ≤ 99) : n / 10 ≤ 9 := by omega

theorem pad2_mod_le (n : Nat) : n % 10 ≤ 9 := by omega

theorem pad2_digits (n : Nat) (hn : n ≤ 99) : (pad2 n).all Char.isDigit = true := by
  simp [pad2, digitChar_isDigit _ (pad2_div_le n hn), digitChar_isDigit _ (pad2_mod_le n)]

theorem pad2_ne_colon (n : Nat) (hn : n ≤ 99) : ∀ x ∈ pad2 n, x ≠ ':' := by
  intro x hx
  simp [pad2] at hx
  rcases hx with rfl | rfl
  · exact digitChar_ne_colon _ (pad2_div_le n hn)
  · exact digitChar_ne_colon _ (pad2_mod_le n)

theorem digitsVal_pad2 (n : Nat) (hn : n ≤ 99) : digitsVal (pad2 n) = n := by
  simp [digitsVal, pad2, digitChar_toNat _ (pad2_div_le n hn),
        digitChar_toNat _ (pad2_mod_le n)]
  omega

theorem pad2_length (n : Nat) : (pad2 n).length = 2 := rfl

theorem parse_time_fmtTime (n : Nat) (hn : n < 1440) :
    parse_time (fmtTime n) = some n := by
  have hh : n / 60 ≤ 99 := by omega
  have hm : n % 60 ≤ 99 := by omega
  have hdata : (fmtTime n).data = pad2 (n / 60) ++ ':' :: pad2 (n % 60) := rfl
  unfold parse_time
  rw [hdata, splitOnChar_sep ':' _ _ (pad2_ne_colon _ hh) (pad2_ne_colon _ hm)]
  simp [pad2_digits _ hh, pad2_digits _ hm, pad2_length,
        digitsVal_pad2 _ hh, digitsVal_pad2 _ hm]
  omega

theorem zz_digits : (['0', '0'] : List Char).all Char.isDigit = true := by decide

theorem zz_val : digitsVal ['0', '0'] = 0 := by decide

theorem parse_time_fmtHourLabel (h : Nat) (hh : h ≤ 23) :
    parse_time (fmtHourLabel h) = some (h * 60) := by
  have h99 : h ≤ 99 := by omega
  have hdata : (fmtHourLabel h).data = pad2 h ++ ':' :: ['0', '0'] := rfl
  unfold parse_time
  rw [hdata, splitOnChar_sep ':' _ _ (pad2_ne_colon _ h99) (by decide)]
  simp [pad2_digits _ h99, pad2_length, digitsVal_pad2 _ h99, hh, zz_digits, zz_val]

theorem mem_gridGo {fuel cur endt x : Nat} (hx : x ∈ gridGo fuel cur endt) :
    cur ≤ x ∧ x < endt := by
  induction fuel generalizing cur with
  | zero => simp [gridGo] at hx
  | succ f ih =>
    unfold gridGo at hx
    by_cases h : cur < endt
    · simp [h] at hx
      rcases hx with rfl | hx
      · omega
      · have := ih hx; omega
    · simp [h] at hx

theorem gridGo_sorted (fuel cur endt : Nat) :
    List.Pairwise (fun a b => a < b) (gridGo fuel cur endt) := by
  induction fuel generalizing cur with
  | zero => simp [gridGo]
  | succ f ih =>
    unfold gridGo
    by_cases h : cur < endt
    · simp [h]
      refine ⟨fun y hy => ?_, ih (cur + 30)⟩
      have := mem_gridGo hy; omega
    · simp [h]

theorem slots_go_eq (store : List Appointment) (date : String) (dur endt : Nat) :
    ∀ fuel cur, slots_go store date dur endt fuel cur =
      ((gridGo fuel cur endt).filter
        (fun mnt => (check_conflicts store date (fmtTime mnt) dur).isEmpty)).map fmtTime := by
  intro fuel
  induction fuel with
  | zero => intro cur; rfl
  | succ f ih =>
    intro cur
    unfold slots_go gridGo
    by_cases h : cur < endt
    · by_cases hc : check_conflicts store date (fmtTime cur) dur = []
      · simp [h, hc, ih (cur + 30)]
      · simp [h, hc, ih (cur + 30), List.isEmpty_iff]
    · simp [h]

theorem check_loop_sound {start dur : Nat} {l : List Appointment} {c : ConflictInfo}
    (hc : c ∈ check_loop start dur l) :
    ∃ a, a ∈ l ∧ a.status ≠ "cancelled" ∧ ∃ as_, parse_time a.time = some as_ ∧
      start < as_ + a.duration_minutes ∧ start + dur > as_ ∧ c = conflictOf a := by
  induction l with
  | nil => simp [check_loop] at hc
  | cons a rest ih =>
    unfold check_loop at hc
    by_cases hs : a.status = "cancelled"
    · rw [if_pos hs] at hc
      obtain ⟨b, hb, h1, h2⟩ := ih hc
      exact ⟨b, by simp [hb], h1, h2⟩
    · rw [if_neg hs] at hc
      cases hpt : parse_time a.time with
      | none => rw [hpt] at hc; dsimp only at hc; simp at hc
      | some as_ =>
        rw [hpt] at hc
        dsimp only at hc
        by_cases hov : start < as_ + a.duration_minutes ∧ start + dur > as_
        · rw [if_pos hov] at hc
          rcases List.mem_cons.mp hc with rfl | hc2
          · exact ⟨a, by simp, hs, as_, hpt, hov.1, hov.2, rfl⟩
          · obtain ⟨b, hb, h1, h2⟩ := ih hc2
            exact ⟨b, by simp [hb], h1, h2⟩
        · rw [if_neg hov] at hc
          obtain ⟨b, hb, h1, h2⟩ := ih hc
          exact ⟨b, by simp [hb], h1, h2⟩

theorem check_loop_mem_iff {start dur : Nat} {l : List Appointment}
    (hwf : ∀ a ∈ l, a.status ≠ "cancelled" → (parse_time a.time).isSome = true)
    (c : ConflictInfo) :
    c ∈ check_loop start dur l ↔
      ∃ a, a ∈ l ∧ a.status ≠ "cancelled" ∧ ∃ as_, parse_time a.time = some as_ ∧
        start < as_ + a.duration_minutes ∧ start + dur > as_ ∧ c = conflictOf a := by
  constructor
  · exact check_loop_sound
  · intro h
    induction l with
    | nil => simp at h
    | cons a rest ih =>
      obtain ⟨b, hb, hbs, as_, hpt, h1, h2, hcb⟩ := h
      unfold check_loop
      by_cases hs : a.status = "cancelled"
      · rw [if_pos hs]
        rcases List.mem_cons.mp hb with rfl | hb2
        · exact absurd hs hbs
        · exact ih (fun x hx => hwf x (by simp [hx])) ⟨b, hb2, hbs, as_, hpt, h1, h2, hcb⟩
      · rw [if_neg hs]
        have hps : (parse_time a.time).isSome = true := hwf a (by simp) hs
        cases hpa : parse_time a.time with
        | none => rw [hpa] at hps; simp at hps
        | some av =>
          dsimp only
          rcases List.mem_cons.mp hb with rfl | hb2
          · rw [hpt] at hpa
            injection hpa with hav
            subst hav
            rw [if_pos ⟨h1, h2⟩]
            exact List.mem_cons.mpr (Or.inl hcb)
          · have hrec := ih (fun x hx => hwf x (by simp [hx]))
              ⟨b, hb2, hbs, as_, hpt, h1, h2, hcb⟩
            by_cases hov : start < av + a.duration_minutes ∧ start + dur > av
            · rw [if_pos hov]; exact List.mem_cons.mpr (Or.inr hrec)
            · rw [if_neg hov]; exact hrec

theorem check_loop_truncate {start dur : Nat} (bad : Appointment)
    (hbs : bad.status ≠ "cancelled") (hbp : parse_time bad.time = none) :
    ∀ l1 l2, check_loop start dur (l1 ++ bad :: l2) = check_loop start dur l1 := by
  intro l1
  induction l1 with
  | nil =>
    intro l2
    simp only [List.nil_append]
    unfold check_loop
    rw [if_neg hbs, hbp]
  | cons a rest ih =>
    intro l2
    simp only [List.cons_append]
    unfold check_loop
    by_cases hs : a.status = "cancelled"
    · rw [if_pos hs, if_pos hs, ih l2]
    · rw [if_neg hs, if_neg hs]
      cases hpa : parse_time a.time with
      | none => rfl
      | some av =>
        dsimp only
        by_cases hov : start < av + a.duration_minutes ∧ start + dur > av
        · rw [if_pos hov, if_pos hov, ih l2]
        · rw [if_neg hov, if_neg hov, ih l2]

theorem mem_by_date {store : List Appointment} {date : String} {a : Appointment} :
    a ∈ get_appointments_by_date store date ↔ a ∈ store ∧ a.date = date := by
  simp [get_appointments_by_date]

theorem check_conflicts_mem_iff {store : List Appointment} {date time : String}
    {dur start : Nat} (hp : parse_time time = some start)
    (hwf : timesParse store date) (c : ConflictInfo) :
    c ∈ check_conflicts store date time dur ↔
      ∃ a, a ∈ store ∧ a.date = date ∧ a.status ≠ "cancelled" ∧
        ∃ as_, parse_time a.time = some as_ ∧
          start < as_ + a.duration_minutes ∧ start + dur > as_ ∧ c = conflictOf a := by
  unfold check_conflicts
  rw [hp]
  dsimp only
  rw [check_loop_mem_iff (fun a ha hs => hwf a (mem_by_date.mp ha).1 (mem_by_date.mp ha).2 hs)]
  constructor
  · rintro ⟨a, ha, h⟩
    exact ⟨a, (mem_by_date.mp ha).1, (mem_by_date.mp ha).2, h⟩
  · rintro ⟨a, ha, hd, h⟩
    exact ⟨a, mem_by_date.mpr ⟨ha, hd⟩, h⟩

theorem check_conflicts_sound {store : List Appointment} {date time : String}
    {dur : Nat} {c : ConflictInfo} (hc : c ∈ check_conflicts store date time dur) :
    ∃ b, b ∈ store ∧ b.status ≠ "cancelled" ∧ c = conflictOf b := by
  unfold check_conflicts at hc
  cases hp : parse_time time with
  | none => rw [hp] at hc; dsimp only at hc; simp at hc
  | some start =>
    rw [hp] at hc
    dsimp only at hc
    obtain ⟨b, hb, hbs, _, _, _, _, hcb⟩ := check_loop_sound hc
    exact ⟨b, (mem_by_date.mp hb).1, hbs, hcb⟩

theorem hasRealConflict_iff {store : List Appointment} {date : String}
    {start dur : Nat} :
    hasRealConflict store date start dur = true ↔
      ∃ a, a ∈ store ∧ a.date = date ∧ a.status ≠ "cancelled" ∧
        ∃ as_, parse_time a.time = some as_ ∧
          start < as_ + a.duration_minutes ∧ start + dur > as_ := by
  unfold hasRealConflict
  rw [List.any_eq_true]
  constructor
  · rintro ⟨a, ha, hpa⟩
    simp only [Bool.and_eq_true, beq_iff_eq, bne_iff_ne, ne_eq] at hpa
    obtain ⟨⟨hd, hs⟩, hm⟩ := hpa
    cases hpt : parse_time a.time with
    | none => rw [hpt] at hm; dsimp only at hm; simp at hm
    | some as_ =>
      rw [hpt] at hm
      dsimp only at hm
      simp only [Bool.and_eq_true, decide_eq_true_eq] at hm
      exact ⟨a, ha, hd, hs, as_, hpt, hm.1, hm.2⟩
  · rintro ⟨a, ha, hd, hs, as_, hpt, h1, h2⟩
    refine ⟨a, ha, ?_⟩
    simp only [Bool.and_eq_true, beq_iff_eq, bne_iff_ne, ne_eq]
    refine ⟨⟨hd, hs⟩, ?_⟩
    rw [hpt]
    dsimp only
    simp [h1, h2]

theorem check_conflicts_empty_iff {store : List Appointment} {date time : String}
    {dur start : Nat} (hp : parse_time time = some start)
    (hwf : timesParse store date) :
    (check_conflicts store date time dur).isEmpty =
      !(hasRealConflict store date start dur) := by
  cases hreal : hasRealConflict store date start dur with
  | true =>
    obtain ⟨a, ha, hd, hs, as_, hpt, h1, h2⟩ := hasRealConflict_iff.mp hreal
    have hm : conflictOf a ∈ check_conflicts store date time dur :=
      (check_conflicts_mem_iff hp hwf (conflictOf a)).mpr
        ⟨a, ha, hd, hs, as_, hpt, h1, h2, rfl⟩
    simp only [Bool.not_true, List.isEmpty_eq_false_iff_exists_mem]
    exact ⟨conflictOf a, hm⟩
  | false =>
    simp only [Bool.not_false, List.isEmpty_iff]
    by_contra hne
    obtain ⟨c, hc⟩ := List.exists_mem_of_ne_nil _ hne
    obtain ⟨a, ha, hd, hs, as_, hpt, h1, h2, _⟩ :=
      (check_conflicts_mem_iff hp hwf c).mp hc
    rw [hasRealConflict_iff.mpr ⟨a, ha, hd, hs, as_, hpt, h1, h2⟩] at hreal
    exact Bool.noConfusion hreal

theorem charsLe_total : ∀ l1 l2 : List Char, charsLe l1 l2 = true ∨ charsLe l2 l1 = true := by
  intro l1
  induction l1 with
  | nil => intro l2; left; rfl
  | cons a as_ ih =>
    intro l2
    cases l2 with
    | nil => right; rfl
    | cons b bs =>
      unfold charsLe
      by_cases h1 : a.toNat < b.toNat
      · left; rw [if_pos h1]
      · by_cases h2 : b.toNat < a.toNat
        · right; rw [if_pos h2]
        · rw [if_neg h1, if_neg h2, if_neg h2, if_neg h1]
          exact ih bs

theorem charsLe_trans : ∀ l1 l2 l3 : List Char, charsLe l1 l2 = true →
    charsLe l2 l3 = true → charsLe l1 l3 = true := by
  intro l1
  induction l1 with
  | nil => intro l2 l3 _ _; rfl
  | cons a as_ ih =>
    intro l2 l3 h12 h23
    cases l2 with
    | nil => exact absurd h12 (by simp [charsLe])
    | cons b bs =>
      cases l3 with
      | nil => exact absurd h23 (by simp [charsLe])
      | cons c cs =>
        unfold charsLe at h12 h23 ⊢
        by_cases hab : a.toNat < b.toNat
        · by_cases hbc : b.toNat < c.toNat
          · rw [if_pos (by omega : a.toNat < c.toNat)]
          · rw [if_neg hbc] at h23
            by_cases hcb : c.toNat < b.toNat
            · rw [if_pos hcb] at h23; exact absurd h23 (by simp)
            · rw [if_pos (by omega : a.toNat < c.toNat)]
        · rw [if_neg hab] at h12
          by_cases hba : b.toNat < a.toNat
          · rw [if_pos hba] at h12; exact absurd h12 (by simp)
          · rw [if_neg hba] at h12
            by_cases hbc : b.toNat < c.toNat
            · rw [if_pos (by omega : a.toNat < c.toNat)]
            · rw [if_neg hbc] at h23
              by_cases hcb : c.toNat < b.toNat
              · rw [if_pos hcb] at h23; exact absurd h23 (by simp)
              · rw [if_neg hcb] at h23
                rw [if_neg (by omega : ¬a.toNat < c.toNat),
                    if_neg (by omega : ¬c.toNat < a.toNat)]
                exact ih bs cs h12 h23

theorem strLe_total (s t : String) : strLe s t = true ∨ strLe t s = true :=
  charsLe_total s.data t.data

theorem strLe_trans {s t u : String} (h1 : strLe s t = true) (h2 : strLe t u = true) :
    strLe s u = true :=
  charsLe_trans s.data t.data u.data h1 h2

theorem mem_insertByTime {x a : Appointment} :
    ∀ l, x ∈ insertByTime a l ↔ x = a ∨ x ∈ l := by
  intro l
  induction l with
  | nil => simp [insertByTime]
  | cons b bs ih =>
    unfold insertByTime
    by_cases h : strLe a.time b.time = true
    · rw [if_pos h]; simp
    · rw [if_neg h]; simp [ih]; tauto

theorem mem_sortByTime {x : Appointment} : ∀ l, x ∈ sortByTime l ↔ x ∈ l := by
  intro l
  induction l with
  | nil => simp [sortByTime]
  | cons a rest ih =>
    unfold sortByTime
    rw [mem_insertByTime, ih]
    simp

theorem pairwise_insertByTime {a : Appointment} :
    ∀ {l : List Appointment},
      List.Pairwise (fun x y => strLe x.time y.time = true) l →
      List.Pairwise (fun x y => strLe x.time y.time = true) (insertByTime a l) := by
  intro l
  induction l with
  | nil => intro _; simp [insertByTime]
  | cons b bs ih =>
    intro hl
    unfold insertByTime
    by_cases h : strLe a.time b.time = true
    · rw [if_pos h]
      refine List.Pairwise.cons ?_ hl
      intro y hy
      rcases List.mem_cons.mp hy with rfl | hy2
      · exact h
      · exact strLe_trans h (List.rel_of_pairwise_cons hl hy2)
    · rw [if_neg h]
      have hba : strLe b.time a.time = true := by
        rcases strLe_total a.time b.time with h1 | h1
        · exact absurd h1 h
        · exact h1
      refine List.Pairwise.cons ?_ (ih (List.Pairwise.of_cons hl))
      intro y hy
      rcases (mem_insertByTime _).mp hy with rfl | hy2
      · exact hba
      · exact List.rel_of_pairwise_cons hl hy2

theorem sortByTime_sorted : ∀ l : List Appointment,
    List.Pairwise (fun x y => strLe x.time y.time = true) (sortByTime l) := by
  intro l
  induction l with
  | nil => simp [sortByTime]
  | cons a rest ih => exact pairwise_insertByTime ih

theorem mem_insertByDateTime {x a : Appointment} :
    ∀ l, x ∈ insertByDateTime a l → x = a ∨ x ∈ l := by
  intro l
  induction l with
  | nil => simp [insertByDateTime]
  | cons b bs ih =>
    unfold insertByDateTime
    by_cases h : keyLe a b = true
    · rw [if_pos h]; simp
    · rw [if_neg h]
      intro hx
      rcases List.mem_cons.mp hx with rfl | hx2
      · simp
      · rcases ih hx2 with h1 | h1
        · exact Or.inl h1
        · exact Or.inr (by simp [h1])

theorem mem_sortByDateTime {x : Appointment} :
    ∀ l, x ∈ sortByDateTime l → x ∈ l := by
  intro l
  induction l with
  | nil => simp [sortByDateTime]
  | cons a rest ih =>
    unfold sortByDateTime
    intro hx
    rcases mem_insertByDateTime _ hx with rfl | hx2
    · simp
    · exact List.mem_cons.mpr (Or.inr (ih hx2))

theorem mem_upcoming_filter {x : Appointment} {todayOrd days_ahead : Nat} :
    ∀ l, x ∈ upcoming_filter todayOrd days_ahead l →
      x ∈ l ∧ x.status ≠ "cancelled" := by
  intro l
  induction l with
  | nil => simp [upcoming_filter]
  | cons a rest ih =>
    unfold upcoming_filter
    by_cases hs : a.status = "cancelled"
    · rw [if_pos hs]
      intro hx
      obtain ⟨h1, h2⟩ := ih hx
      exact ⟨by simp [h1], h2⟩
    · rw [if_neg hs]
      cases hpd : parse_date a.date with
      | none =>
        intro hx
        obtain ⟨h1, h2⟩ := ih hx
        exact ⟨by simp [h1], h2⟩
      | some ymd =>
        dsimp only
        obtain ⟨y, m, d⟩ := ymd
        by_cases hr : (0 : Int) ≤ (dateOrdinal y m d : Int) - (todayOrd : Int) ∧
            (dateOrdinal y m d : Int) - (todayOrd : Int) ≤ (days_ahead : Int)
        · rw [if_pos hr]
          intro hx
          rcases List.mem_cons.mp hx with rfl | hx2
          · exact ⟨by simp, hs⟩
          · obtain ⟨h1, h2⟩ := ih hx2
            exact ⟨by simp [h1], h2⟩
        · rw [if_neg hr]
          intro hx
          obtain ⟨h1, h2⟩ := ih hx
          exact ⟨by simp [h1], h2⟩

theorem mem_get_upcoming {x : Appointment} {store : List Appointment}
    {todayOrd days_ahead : Nat}
    (hx : x ∈ get_upcoming_appointments store todayOrd days_ahead) :
    x ∈ store ∧ x.status ≠ "cancelled" :=
  mem_upcoming_filter _ (mem_sortByDateTime _ hx)

theorem range'_one_concat (n : Nat) :
    List.range' 1 (n + 1) = List.range' 1 n ++ [n + 1] := by
  rw [List.range'_concat]
  norm_num
  omega

theorem applyUpdate_id (u : UpdateData) (now : String) (a : Appointment) :
    (applyUpdate u now a).id = a.id := rfl

theorem find_decomp {store : List Appointment} {i : Nat} {a : Appointment}
    (h : get_appointment store i = some a) :
    a.id = i ∧ ∃ l1 l2, store = l1 ++ a :: l2 ∧ ∀ b ∈ l1, b.id ≠ i := by
  induction store with
  | nil => simp [get_appointment] at h
  | cons x rest ih =>
    unfold get_appointment at h
    rw [List.find?_cons] at h
    cases hpx : (x.id == i) with
    | true =>
      rw [hpx] at h
      dsimp only at h
      injection h with hxa
      subst hxa
      exact ⟨by simpa using hpx, [], rest, rfl, by simp⟩
    | false =>
      rw [hpx] at h
      dsimp only at h
      obtain ⟨hai, l1, l2, hdec, hl1⟩ := ih h
      refine ⟨hai, x :: l1, l2, by simp [hdec], ?_⟩
      intro b hb
      rcases List.mem_cons.mp hb with rfl | hb2
      · simpa using hpx
      · exact hl1 b hb2

theorem update_list_decomp {i : Nat} {u : UpdateData} {now : String}
    {a : Appointment} (ha : a.id = i) :
    ∀ l1 l2, (∀ b ∈ l1, b.id ≠ i) →
      update_list i u now (l1 ++ a :: l2) = some (l1 ++ applyUpdate u now a :: l2) := by
  intro l1
  induction l1 with
  | nil =>
    intro l2 _
    simp only [List.nil_append]
    unfold update_list
    rw [if_pos ha]
  | cons b bs ih =>
    intro l2 hb
    simp only [List.cons_append]
    unfold update_list
    rw [if_neg (hb b (by simp)), ih l2 (fun x hx => hb x (by simp [hx]))]

theorem get_appointment_prepend {i : Nat} {a : Appointment} (ha : a.id = i) :
    ∀ l1 l2, (∀ b ∈ l1, b.id ≠ i) →
      get_appointment (l1 ++ a :: l2) i = some a := by
  intro l1
  induction l1 with
  | nil =>
    intro l2 _
    simp only [List.nil_append]
    unfold get_appointment
    rw [List.find?_cons]
    have : (a.id == i) = true := by simpa using ha
    rw [this]
  | cons b bs ih =>
    intro l2 hb
    simp only [List.cons_append]
    unfold get_appointment
    rw [List.find?_cons]
    have : (b.id == i) = false := by simpa using hb b (by simp)
    rw [this]
    exact ih l2 (fun x hx => hb x (by simp [hx]))

theorem update_list_ids {i : Nat} {u : UpdateData} {now : String} :
    ∀ l l', update_list i u now l = some l' →
      l'.map (fun a => a.id) = l.map (fun a => a.id) := by
  intro l
  induction l with
  | nil => intro l' h; simp [update_list] at h
  | cons a rest ih =>
    intro l' h
    unfold update_list at h
    by_cases hid : a.id = i
    · rw [if_pos hid] at h
      injection h with hl
      subst hl
      simp [applyUpdate_id]
    · rw [if_neg hid] at h
      cases hrec : update_list i u now rest with
      | none => rw [hrec] at h; dsimp only at h; exact absurd h (by simp)
      | some r =>
        rw [hrec] at h
        dsimp only at h
        injection h with hl
        subst hl
        simp [ih r hrec]

theorem create_store_ids (s : List Appointment) (w : Bool) (now t d tm : String)
    (du : Nat) (cn ds : String) :
    ((create_appointment s w now t d tm du cn ds).2).map (fun a => a.id) =
      s.map (fun a => a.id) ++
        (if (create_appointment s w now t d tm du cn ds).1.success then
          [s.length + 1] else []) := by
  unfold create_appointment save_appointment
  by_cases h1 : (parse_date d).isNone = true ∨ (parse_time tm).isNone = true
  · rw [if_pos h1]; simp
  · rw [if_neg h1]
    dsimp only
    by_cases h2 : check_conflicts s d tm du ≠ []
    · rw [if_pos h2]; simp
    · rw [if_neg h2]
      cases w with
      | true => simp
      | false => simp

theorem runCreates_ids : ∀ (reqs : List CreateReq) (s : List Appointment),
    s.map (fun a => a.id) = List.range' 1 s.length →
    ((runCreates reqs s).2).map (fun a => a.id) =
      List.range' 1 (s.length + ((runCreates reqs s).1).countP (fun r => r.success)) := by
  intro reqs
  induction reqs with
  | nil => intro s hs; simpa using hs
  | cons r rs ih =>
    intro s hs
    unfold runCreates
    dsimp only
    rw [List.countP_cons]
    set C := create_appointment s r.write_ok r.now r.title r.date r.time
      r.duration_minutes r.client_name r.description with hC
    have hstep := create_store_ids s r.write_ok r.now r.title r.date r.time
      r.duration_minutes r.client_name r.description
    rw [← hC] at hstep
    cases hsucc : C.1.success with
    | true =>
      rw [hsucc] at hstep
      rw [show (if (true : Bool) = true then [s.length + 1] else ([] : List Nat)) =
        [s.length + 1] from rfl] at hstep
      have hlen : C.2.length = s.length + 1 := by
        have := congrArg List.length hstep
        simpa using this
      have hs2 : C.2.map (fun a => a.id) = List.range' 1 C.2.length := by
        rw [hlen, hstep, hs, range'_one_concat]
      have hrec := ih C.2 hs2
      rw [hlen] at hrec
      rw [hrec, show (if (true : Bool) = true then 1 else 0) = 1 from rfl]
      congr 1
      omega
    | false =>
      rw [hsucc] at hstep
      rw [show (if (false : Bool) = true then [s.length + 1] else ([] : List Nat)) =
        [] from rfl, List.append_nil] at hstep
      have hlen : C.2.length = s.length := by
        have := congrArg List.length hstep
        simpa using this
      have hs2 : C.2.map (fun a => a.id) = List.range' 1 C.2.length := by
        rw [hlen, hstep, hs]
      have hrec := ih C.2 hs2
      rw [hlen] at hrec
      rw [hrec, show (if (false : Bool) = true then 1 else 0) = 0 from rfl,
        Nat.add_zero]

theorem save_preserves_invariants {s : List Appointment} (appt : Appointment)
    (now : String) (w : Bool) (hb : idsBounded s) (hu : uniqueIds s) :
    uniqueIds (save_appointment s appt now w).2.1 ∧
      idsBounded (save_appointment s appt now w).2.1 := by
  unfold save_appointment
  cases w with
  | false => exact ⟨hu, hb⟩
  | true =>
    dsimp only
    simp only [reduceIte]
    constructor
    · unfold uniqueIds at hu ⊢
      rw [List.map_append]
      rw [List.nodup_append]
      refine ⟨hu, by simp, ?_⟩
      intro x hx
      have hxle : x ≤ s.length := by
        simp only [List.mem_map] at hx
        obtain ⟨a, ha, rfl⟩ := hx
        exact hb a ha
      simp only [List.map_cons, List.map_nil, List.mem_cons]
      intro hcon
      rcases hcon with hcon | hcon
      · omega
      · simp at hcon
    · intro a ha
      rw [List.length_append]
      rcases List.mem_append.mp ha with h1 | h1
      · have := hb a h1; simp; omega
      · simp at h1
        subst h1
        simp

theorem update_preserves_uniqueIds {s : List Appointment} (i : Nat)
    (u : UpdateData) (now : String) (w : Bool) (hu : uniqueIds s) :
    uniqueIds (update_appointment s i u now w).2 := by
  unfold update_appointment
  cases hul : update_list i u now s with
  | none => exact hu
  | some l' =>
    dsimp only
    cases w with
    | false => exact hu
    | true =>
      simp only [reduceIte]
      unfold uniqueIds at hu ⊢
      rw [update_list_ids s l' hul]
      exact hu

theorem delete_preserves_uniqueIds {s : List Appointment} (i : Nat) (w : Bool)
    (hu : uniqueIds s) : uniqueIds (delete_appointment s i w).2 := by
  unfold delete_appointment
  dsimp only
  by_cases h1 : (s.filter (fun a => a.id != i)).length < s.length
  · rw [if_pos h1]
    cases w with
    | false => exact hu
    | true =>
      simp only [reduceIte]
      unfold uniqueIds at hu ⊢
      exact List.Nodup.sublist ((List.filter_sublist s).map (fun a => a.id)) hu
  · rw [if_neg h1]; exact hu

/-- Claim C1: whenever the candidate time parses as `start` and every
non-cancelled stored record of the date carries a parseable time, the
conflict scan reports an entry for a record iff the record is on the
date, not cancelled, and satisfies the strict half-open overlap test
(candidate start before record end AND candidate end after record
start); touching endpoints fail the strict inequalities, so an
appointment ending exactly when another starts is never reported. -/
theorem claim_c1 (store : List Appointment) (date time : String)
    (dur start : Nat) (hp : parse_time time = some start)
    (hwf : timesParse store date) (c : ConflictInfo) :
    c ∈ check_conflicts store date time dur ↔
      ∃ a, a ∈ store ∧ a.date = date ∧ a.status ≠ "cancelled" ∧
        ∃ as_, parse_time a.time = some as_ ∧
          start < as_ + a.duration_minutes ∧ start + dur > as_ ∧
          c = conflictOf a :=
  check_conflicts_mem_iff hp hwf c

/-- Witness for C1 at a concrete input: an appointment from 10:00 to
11:00 does not conflict with a candidate starting exactly at 11:00. -/
theorem claim_c1_witness :
    conflictOf exMeeting ∉ check_conflicts [exMeeting] "2026-01-15" "11:00" 60 := by
  intro hmem
  have h := (claim_c1 [exMeeting] "2026-01-15" "11:00" 60 660 (by decide)
    (by unfold timesParse; decide) (conflictOf exMeeting)).mp hmem
  obtain ⟨a, ha, hd, hs, as_, hpt, h1, h2, hc⟩ := h
  simp only [List.mem_singleton] at ha
  subst ha
  rw [show parse_time exMeeting.time = some 600 from by decide] at hpt
  injection hpt with has
  subst has
  have hdm : exMeeting.duration_minutes = 60 := rfl
  rw [hdm] at h1
  omega

/-- Claim C2 (amended): for a parseable date, hour parameters inside
0..23, and a store whose non-cancelled records on the date all carry
parseable times, `get_available_slots` returns exactly the 30-minute
candidate grid from start hour (inclusive) to end hour (exclusive)
filtered by absence of a real interval conflict, the grid is strictly
ascending (generation order), and an unparseable date yields the empty
sequence for every store. -/
theorem claim_c2_amended (store : List Appointment) (date : String)
    (dur sh eh : Nat) (pd : Nat × Nat × Nat)
    (hd : parse_date date = some pd) (hsh : sh ≤ 23) (heh : eh ≤ 23)
    (hwf : timesParse store date) :
    get_available_slots store date dur sh eh =
      some (((candidates sh eh).filter
        (fun mnt => !(hasRealConflict store date mnt dur))).map fmtTime) ∧
    List.Pairwise (fun a b => a < b) (candidates sh eh) ∧
    (∀ date2, parse_date date2 = none →
      ∀ store2 : List Appointment,
        get_available_slots store2 date2 dur sh eh = some []) := by
  refine ⟨?_, gridGo_sorted 48 (sh * 60) (eh * 60), ?_⟩
  · unfold get_available_slots
    rw [hd]
    dsimp only
    rw [parse_time_fmtHourLabel sh hsh, parse_time_fmtHourLabel eh heh]
    dsimp only
    rw [slots_go_eq]
    unfold candidates
    congr 1
    apply congrArg (List.map fmtTime)
    apply List.filter_congr
    intro mnt hmnt
    have hm := mem_gridGo hmnt
    have hlt : mnt < 1440 := by omega
    rw [check_conflicts_empty_iff (parse_time_fmtTime mnt hlt) hwf]
  · intro date2 h2 store2
    unfold get_available_slots
    rw [h2]

/-- Counterexample for C2 as stated: with a non-cancelled malformed-time
record stored before an overlapping one, the slot 10:00 is returned even
though a non-cancelled record on the date really overlaps it. -/
theorem claim_c2_counterexample :
    (get_available_slots truncStore "2026-01-15" 60 9 17).map
        (fun l => l.contains "10:00") = some true ∧
    overlapRec ∈ truncStore ∧ overlapRec.status ≠ "cancelled" ∧
    overlapRec.date = "2026-01-15" ∧ parse_time overlapRec.time = some 600 ∧
    parse_time "10:00" = some 600 ∧
    600 < 600 + overlapRec.duration_minutes ∧ 600 + 60 > 600 := by
  refine ⟨by decide, by decide, by decide, by decide, by decide, by decide,
    by decide, by decide⟩

/-- Witness for C2 (amended) at a concrete input. -/
theorem claim_c2_witness :
    get_available_slots [exMeeting] "2026-01-15" 60 9 17 =
      some (((candidates 9 17).filter
        (fun mnt => !(hasRealConflict [exMeeting] "2026-01-15" mnt 60))).map fmtTime) :=
  (claim_c2_amended [exMeeting] "2026-01-15" 60 9 17 (2026, 1, 15)
    (by decide) (by decide) (by decide) (by unfold timesParse; decide)).1

/-- Claim C3: a create call whose date or time fails to parse returns
the invalid-format failure, leaves the durable store untouched, and its
result does not depend on the store, the write outcome, or the clock in
any way. -/
theorem claim_c3 (store store2 : List Appointment) (w w2 : Bool)
    (now now2 title date time : String) (dur : Nat) (cn ds : String)
    (h : parse_date date = none ∨ parse_time time = none) :
    create_appointment store w now title date time dur cn ds =
      ({ success := false, error := some "Invalid date or time format" }, store) ∧
    (create_appointment store w now title date time dur cn ds).1 =
      (create_appointment store2 w2 now2 title date time dur cn ds).1 := by
  have hcond : (parse_date date).isNone = true ∨ (parse_time time).isNone = true := by
    rcases h with h | h <;> simp [h]
  constructor
  · unfold create_appointment
    rw [if_pos hcond]
  · unfold create_appointment
    rw [if_pos hcond, if_pos hcond]

/-- Witness for C3 at the concrete unparseable date of the spec. -/
theorem claim_c3_witness :
    create_appointment [exMeeting] true "t" "X" "01-15-2026" "10:00" 60 "" "" =
      ({ success := false, error := some "Invalid date or time format" },
        [exMeeting]) :=
  (claim_c3 [exMeeting] [] true false "t" "u" "X" "01-15-2026" "10:00" 60 "" ""
    (Or.inl (by decide))).1

/-- Claim C4: rescheduling an existing record to a slot whose conflict
scan (run with the stored duration) is non-empty returns the conflict
failure carrying exactly that conflict list, and the durable store is
returned unchanged. -/
theorem claim_c4 (store : List Appointment) (w : Bool) (now : String)
    (i : Nat) (nd nt : String) (a : Appointment)
    (hget : get_appointment store i = some a)
    (hc : check_conflicts store nd nt a.duration_minutes ≠ []) :
    reschedule_appointment store w now i nd nt =
      ({ success := false, error := some "New time has conflicts",
         conflicts := some (check_conflicts store nd nt a.duration_minutes) },
       store) := by
  unfold reschedule_appointment
  rw [hget]
  dsimp only
  rw [if_pos hc]

/-- Witness for C4: rescheduling the 2026-01-16 record onto 10:30 of
2026-01-15 collides with the 10:00 meeting and changes nothing. -/
theorem claim_c4_witness :
    reschedule_appointment exStore2 true "t" 2 "2026-01-15" "10:30" =
      ({ success := false, error := some "New time has conflicts",
         conflicts := some (check_conflicts exStore2 "2026-01-15" "10:30"
           exMeeting2.duration_minutes) }, exStore2) :=
  claim_c4 exStore2 true "t" 2 "2026-01-15" "10:30" exMeeting2
    (by decide) (by decide)

/-- Claim C5: running any sequence of create calls from the empty store
leaves a store whose identifiers are exactly `1..N` in creation order,
where `N` counts the successful results (failed calls do not touch the
store, and each successful save assigns `id = length + 1`). -/
theorem claim_c5 (reqs : List CreateReq) :
    ((runCreates reqs []).2).map (fun a => a.id) =
      List.range' 1 (((runCreates reqs []).1).countP (fun r => r.success)) := by
  have h := runCreates_ids reqs [] (by simp)
  simpa using h

/-- Claim C6: after a successful cancel the record stays in storage with
status cancelled (only status and the update stamp change), conflict
scans only ever report non-cancelled records, the upcoming query never
returns it, yet the day schedule of its date still contains it, and
every day schedule is sorted ascending by time string. -/
theorem claim_c6 (store : List Appointment) (now : String) (i : Nat)
    (a : Appointment) (hget : get_appointment store i = some a) :
    (cancel_appointment store true now i).1 =
      { success := true, message := some "Appointment cancelled" } ∧
    get_appointment (cancel_appointment store true now i).2 i =
      some (cancelledVersion now a) ∧
    (cancelledVersion now a).status = "cancelled" ∧
    (cancelledVersion now a).date = a.date ∧
    (cancelledVersion now a).time = a.time ∧
    (∀ d t dur c, c ∈ check_conflicts (cancel_appointment store true now i).2 d t dur →
      ∃ b, b ∈ (cancel_appointment store true now i).2 ∧
        b.status ≠ "cancelled" ∧ c = conflictOf b) ∧
    (∀ todayOrd days, cancelledVersion now a ∉
      get_upcoming_appointments (cancel_appointment store true now i).2 todayOrd days) ∧
    cancelledVersion now a ∈
      get_day_schedule (cancel_appointment store true now i).2 a.date ∧
    (∀ d, List.Pairwise (fun x y => strLe x.time y.time = true)
      (get_day_schedule (cancel_appointment store true now i).2 d)) := by
  obtain ⟨hai, l1, l2, hdec, hl1⟩ := find_decomp hget
  have happly : applyUpdate { status := some "cancelled" } now a =
      cancelledVersion now a := rfl
  have hupd := @update_list_decomp i { status := some "cancelled" } now a
    hai l1 l2 hl1
  have hcancel : cancel_appointment store true now i =
      ({ success := true, message := some "Appointment cancelled" },
        l1 ++ cancelledVersion now a :: l2) := by
    unfold cancel_appointment update_appointment
    rw [hget]
    dsimp only
    rw [hdec, hupd]
    dsimp only
    simp only [reduceIte]
    rw [happly]
  have hcid : (cancelledVersion now a).id = i := hai
  refine ⟨by rw [hcancel], ?_, rfl, rfl, rfl, ?_, ?_, ?_, ?_⟩
  · rw [hcancel]
    exact get_appointment_prepend hcid l1 l2 hl1
  · intro d t dur c hc
    exact check_conflicts_sound hc
  · intro todayOrd days hmem
    have h := mem_get_upcoming hmem
    exact h.2 rfl
  · rw [hcancel]
    unfold get_day_schedule
    refine (mem_sortByTime _).mpr ?_
    exact mem_by_date.mpr ⟨by simp, rfl⟩
  · intro d
    unfold get_day_schedule
    exact sortByTime_sorted _

/-- Witness for C6 at a concrete one-record store. -/
theorem claim_c6_witness :
    (cancel_appointment [exMeeting] true "t" 1).1 =
      { success := true, message := some "Appointment cancelled" } :=
  (claim_c6 [exMeeting] "t" 1 exMeeting (by decide)).1

/-- Counterexample for C7 as stated: deleting record 1 from a store with
identifiers 1 and 2 and then saving a fresh record assigns
`id = length + 1 = 2`, which duplicates the surviving id 2 — so an id is
reused after a deletion and uniqueness is not preserved. -/
theorem claim_c7_counterexample :
    uniqueIds [exA1, exA2] ∧
    delete_appointment [exA1, exA2] 1 true = (true, [exA2]) ∧
    ((save_appointment [exA2] { title := "new" } "t" true).2.1.map
      (fun a => a.id)) = [2, 2] ∧
    ¬ uniqueIds (save_appointment [exA2] { title := "new" } "t" true).2.1 := by
  refine ⟨?_, by decide, by decide, ?_⟩
  · unfold uniqueIds; decide
  · unfold uniqueIds; decide

/-- Claim C7 (amended): id uniqueness is preserved by update (ids never
change) and by delete (a sublist), and by save_new from any state whose
ids all lie within the collection length — the shape the create-only
workflow maintains; after a delete that bound is broken and save_new can
reuse a surviving id, as the counterexample shows. -/
theorem claim_c7_amended :
    (∀ (s : List Appointment) (appt : Appointment) (now : String) (w : Bool),
      idsBounded s → uniqueIds s →
      uniqueIds (save_appointment s appt now w).2.1 ∧
        idsBounded (save_appointment s appt now w).2.1) ∧
    (∀ (s : List Appointment) (i : Nat) (u : UpdateData) (now : String) (w : Bool),
      uniqueIds s → uniqueIds (update_appointment s i u now w).2) ∧
    (∀ (s : List Appointment) (i : Nat) (w : Bool),
      uniqueIds s → uniqueIds (delete_appointment s i w).2) :=
  ⟨fun _ appt now w hb hu => save_preserves_invariants appt now w hb hu,
   fun _ i u now w hu => update_preserves_uniqueIds i u now w hu,
   fun _ i w hu => delete_preserves_uniqueIds i w hu⟩

/-- Witness for C7 (amended) at a concrete store. -/
theorem claim_c7_witness :
    uniqueIds (save_appointment [exA1, exA2] { title := "new" } "t" true).2.1 :=
  (claim_c7_amended.1 [exA1, exA2] { title := "new" } "t" true
    (by unfold idsBounded; decide) (by unfold uniqueIds; decide)).1

/-- Claim C8 (amended): with hour parameters inside 0..23 every slot
query over a loaded collection returns a structured value, and the two
exceptions the store catches — a missing file and content that fails to
decode as JSON — degrade to the empty collection, as does an empty
file; but the universal of the claim fails beyond that: hour parameters
outside 0..23 raise from the unprotected label parse, an unreadable or
undecodable file raises out of `load_appointments` into every
store-reading operation, and valid non-list JSON is returned as-is and
breaks the calling operation downstream. -/
theorem claim_c8_amended :
    (∀ (store : List Appointment) (date : String) (dur sh eh : Nat),
      sh ≤ 23 → eh ≤ 23 →
      ∃ l, get_available_slots store date dur sh eh = some l) ∧
    load_appointments FileContent.missing = LoadResult.list [] ∧
    load_appointments FileContent.malformed = LoadResult.list [] ∧
    load_appointments FileContent.emptyFile = LoadResult.list [] ∧
    load_appointments FileContent.unreadable = LoadResult.raised ∧
    load_appointments FileContent.undecodable = LoadResult.raised ∧
    load_appointments FileContent.nonListJson = LoadResult.nonList := by
  refine ⟨?_, rfl, rfl, rfl, rfl, rfl, rfl⟩
  intro store date dur sh eh hsh heh
  unfold get_available_slots
  cases hpd : parse_date date with
  | none => exact ⟨[], rfl⟩
  | some pd =>
    dsimp only
    rw [parse_time_fmtHourLabel sh hsh, parse_time_fmtHourLabel eh heh]
    exact ⟨_, rfl⟩

/-- Counterexample for C8 as stated: an out-of-range end hour makes the
slot query raise an uncaught error (modelled as `none`) instead of
returning a structured result, and unreadable or undecodable persisted
state raises out of the load instead of degrading to an empty
collection. -/
theorem claim_c8_counterexample :
    get_available_slots [] "2026-01-15" 60 9 24 = none ∧
    load_appointments FileContent.unreadable = LoadResult.raised ∧
    load_appointments FileContent.undecodable = LoadResult.raised := by
  refine ⟨by decide, rfl, rfl⟩

/-- Witness for C8 (amended) at concrete in-range hours. -/
theorem claim_c8_witness :
    ∃ l, get_available_slots [] "2026-01-15" 60 9 17 = some l :=
  claim_c8_amended.1 [] "2026-01-15" 60 9 17 (by decide) (by decide)

/-- Claim C9 (amended): a successful create carries the created record,
and every failed result carries an error message EXCEPT the
persistence-failure paths: create returns success false with a null
appointment and no error field at all, while reschedule and cancel
report their write failures through the message field only. -/
theorem claim_c9_amended :
    (∀ (s : List Appointment) (w : Bool) (now t d tm : String) (du : Nat)
        (cn ds : String),
      ((create_appointment s w now t d tm du cn ds).1.success = true →
        ((create_appointment s w now t d tm du cn ds).1.appointment).isSome = true) ∧
      ((create_appointment s w now t d tm du cn ds).1.success = false →
        ((create_appointment s w now t d tm du cn ds).1.error).isSome = true ∨
        ((create_appointment s w now t d tm du cn ds).1.error = none ∧
         (create_appointment s w now t d tm du cn ds).1.appointment = none ∧
         w = false))) ∧
    (∀ (s : List Appointment) (w : Bool) (now : String) (i : Nat) (nd nt : String),
      (reschedule_appointment s w now i nd nt).1.success = false →
      ((reschedule_appointment s w now i nd nt).1.error).isSome = true ∨
      (reschedule_appointment s w now i nd nt).1.message =
        some "Failed to reschedule") ∧
    (∀ (s : List Appointment) (w : Bool) (now : String) (i : Nat),
      (cancel_appointment s w now i).1.success = false →
      ((cancel_appointment s w now i).1.error).isSome = true ∨
      (cancel_appointment s w now i).1.message = some "Failed to cancel") := by
  refine ⟨?_, ?_, ?_⟩
  · intro s w now t d tm du cn ds
    unfold create_appointment save_appointment
    by_cases h1 : (parse_date d).isNone = true ∨ (parse_time tm).isNone = true
    · rw [if_pos h1]
      simp
    · rw [if_neg h1]
      dsimp only
      by_cases h2 : check_conflicts s d tm du ≠ []
      · rw [if_pos h2]
        simp
      · rw [if_neg h2]
        cases w <;> simp
  · intro s w now i nd nt
    unfold reschedule_appointment update_appointment
    cases hget : get_appointment s i with
    | none => simp
    | some a =>
      dsimp only
      by_cases h2 : check_conflicts s nd nt a.duration_minutes ≠ []
      · rw [if_pos h2]
        simp
      · rw [if_neg h2]
        cases hul : update_list i { date := some nd, time := some nt } now s with
        | none => simp
        | some l' => cases w <;> simp
  · intro s w now i
    unfold cancel_appointment update_appointment
    cases hget : get_appointment s i with
    | none => simp
    | some a =>
      dsimp only
      cases hul : update_list i { status := some "cancelled" } now s with
      | none => simp
      | some l' => cases w <;> simp

/-- Counterexample for C9 as stated: create on a failing store write
returns success false with NO error message at all (and a null
appointment), not a persistence-error message. -/
theorem claim_c9_counterexample :
    (create_appointment [] false "t" "T" "2026-01-15" "10:00" 60 "" "").1.success
        = false ∧
    (create_appointment [] false "t" "T" "2026-01-15" "10:00" 60 "" "").1.error
        = none ∧
    (create_appointment [] false "t" "T" "2026-01-15" "10:00" 60 "" "").1.appointment
        = none := by
  refine ⟨by decide, by decide, by decide⟩

/-- Witness for C9 (amended) at the concrete write-failure input. -/
theorem claim_c9_witness :
    ((create_appointment [] false "t" "T" "2026-01-15" "10:00" 60 "" "").1.error).isSome
        = true ∨
    ((create_appointment [] false "t" "T" "2026-01-15" "10:00" 60 "" "").1.error = none ∧
     (create_appointment [] false "t" "T" "2026-01-15" "10:00" 60 "" "").1.appointment = none ∧
     (false : Bool) = false) :=
  (claim_c9_amended.1 [] false "t" "T" "2026-01-15" "10:00" 60 "" "").2 (by decide)

/-- Claim C10: a non-cancelled stored record whose time fails to parse
aborts the conflict scan, so exactly the conflicts among the records of
the date stored before it are returned; consequently create succeeds on
a store where a malformed record precedes a genuinely overlapping one. -/
theorem claim_c10 :
    (∀ (store : List Appointment) (date time : String) (dur start : Nat)
        (bad : Appointment) (pre post : List Appointment),
      parse_time time = some start →
      bad.status ≠ "cancelled" → parse_time bad.time = none →
      get_appointments_by_date store date = pre ++ bad :: post →
      check_conflicts store date time dur = check_loop start dur pre) ∧
    (create_appointment truncStore true "t" "Late" "2026-01-15" "10:00" 60 "" "").1.success
        = true ∧
    hasRealConflict truncStore "2026-01-15" 600 60 = true ∧
    parse_time "10:00" = some 600 := by
  refine ⟨?_, by decide, by decide, by decide⟩
  intro store date time dur start bad pre post hp hbs hbp hdec
  unfold check_conflicts
  rw [hp]
  dsimp only
  rw [hdec, check_loop_truncate bad hbs hbp pre post]

/-- Witness for C10: the scan of the truncating store stops at the first
(malformed) record and returns the empty prefix scan. -/
theorem claim_c10_witness :
    check_conflicts truncStore "2026-01-15" "10:00" 60 = check_loop 600 60 [] :=
  claim_c10.1 truncStore "2026-01-15" "10:00" 60 600 badTimeRec [] [overlapRec]
    (by decide) (by decide) (by decide) (by decide)
